import Mathlib

/-!
# Verification of the rsc expression-evaluator core

A shallow embedding, in Lean 4, of the Rust sources of the `rsc` repository:

* `src/bignum.rs` — the arbitrary-precision fixed-point decimal type `BigNum`
  (two digit vectors `left`/`right` split at the radix point) with
  `trim_data`, `from_raw`, `add_left`, `add_right` and the `FromStr` parser;
* `src/lexer.rs` — the tokenizer `tokenize`;
* `src/computer.rs` — the tree evaluator `compute`.

Machine integers (`u8`, `usize`) are embedded as `Nat`; where the Rust code
relies on two's-complement wrapping (the `*n - 48` byte-to-digit conversion in
release builds) the wrap is written out explicitly as `(n + 208) % 256`.
A Rust `panic!` (out-of-bounds index, `unimplemented!`) is embedded as `none`
of an `Option` result.  Character classification (`is_digit(10)`,
`is_alphabetic`, `is_whitespace`, `to_lowercase`) is embedded on the ASCII
range, which covers every input appearing in the specification's examples.
-/

namespace Rsc

/-! ## `src/bignum.rs` -/

/-- `struct BigNum { left: Vec<u8>, right: Vec<u8> }`.
`left` holds the integer digits least-significant first, `right` holds the
fraction digits most-significant first. -/
structure BigNum where
  left : List Nat
  right : List Nat
deriving DecidableEq, Repr

/-- `static U4_MASK: u8 = 0b1111` -/
def U4_MASK : Nat := 15

namespace BigNum

/-- `BigNum::trim_data`: count the zero digits at the tail of the vector and
truncate them away. -/
def trim_data (data : List Nat) : List Nat :=
  let to_trim := (data.reverse.takeWhile (fun v => v == 0)).length
  data.take (data.length - to_trim)

/-- `BigNum::from_raw`: trim both digit vectors, then build the value. -/
def from_raw (left right : List Nat) : BigNum :=
  { left := trim_data left, right := trim_data right }

/-- The loop body of `BigNum::add_left`, walking `other` from index 0 upward:
when a receiver digit exists it is overwritten with `(other[i] + left[i] +
carry) & U4_MASK`, otherwise `(other[i] + carry) & U4_MASK` is pushed; the
carry left over after the last operand digit is dropped (as in the source,
which never pushes it). -/
def add_left_loop : List Nat → List Nat → Nat → List Nat
  | ls, [], _ => ls
  | [], o :: os, carry =>
    let tmp := o + carry
    (tmp &&& U4_MASK) :: add_left_loop [] os (if tmp > 9 then 1 else 0)
  | l :: ls, o :: os, carry =>
    let tmp := o + l + carry
    (tmp &&& U4_MASK) :: add_left_loop ls os (if tmp > 9 then 1 else 0)

/-- `BigNum::add_left` -/
def add_left (b : BigNum) (other : List Nat) : BigNum :=
  { b with left := add_left_loop b.left other 0 }

/-- The carry loop of `BigNum::add_right`, running from index `i` down to 0.
For `i > 0` the fraction digit at `i` is overwritten with
`(other[i] + right[i] + carry) & U4_MASK`; at `i = 0` the source pushes
`(other[0] + carry) & U4_MASK` onto `left` and breaks (it never reads
`right[0]`).  Returns the updated fraction digits and the digit pushed onto
the integer part. -/
def add_right_loop (other : List Nat) : List Nat → Nat → Nat → List Nat × Nat
  | right, carry, 0 => (right, (other.headD 0 + carry) &&& U4_MASK)
  | right, carry, i + 1 =>
    let tmp := other.getD (i + 1) 0 + right.getD (i + 1) 0 + carry
    add_right_loop other (right.set (i + 1) (tmp &&& U4_MASK))
      (if tmp > 9 then 1 else 0) i

/-- `BigNum::add_right`: when the operand is longer, `other[dif..]` is pushed
onto the end of `right` and `offset = dif`; then the carry loop runs over
`(0..other.len()-offset).rev()`.  When that range is empty nothing further
happens; otherwise the loop always reaches index 0 and pushes one digit onto
`left`. -/
def add_right (b : BigNum) (other : List Nat) : BigNum :=
  let p :=
    if other.length > b.right.length then
      (b.right ++ other.drop (other.length - b.right.length),
        other.length - b.right.length)
    else (b.right, 0)
  match other.length - p.2 with
  | 0 => { b with right := p.1 }
  | n + 1 =>
    let r := add_right_loop other p.1 0 n
    { left := b.left ++ [r.2], right := r.1 }

/-- The UTF-8 byte of an ASCII character, taken through Rust's
`*n - 48` with release-mode wrapping semantics. -/
def byte_digit (c : Char) : Nat := (c.toNat + 208) % 256

/-- Rust's `str::split('.')` on the character list of the input. -/
def split_dot : List Char → List (List Char)
  | [] => [[]]
  | c :: rest =>
    let r := split_dot rest
    if c = '.' then [] :: r
    else
      match r with
      | h :: t => (c :: h) :: t
      | [] => [[c]]

/-- `impl FromStr for BigNum`: split on `'.'`, reverse the integer half and
map `*n - 48` over the bytes of both halves, then `from_raw`.  The source
indexes `divided_string[1]` unconditionally, so an input with no radix point
panics; `none` embeds that panic.  The source never constructs its declared
error type: every non-panicking run returns `Ok`. -/
def from_str? (s : String) : Option BigNum :=
  match split_dot s.data with
  | p0 :: p1 :: _ =>
    some (from_raw ((p0.reverse).map byte_digit) (p1.map byte_digit))
  | _ => none

end BigNum

/-- The integer value represented by a little-endian digit list
(the intended meaning of `BigNum.left`). -/
def digitsVal (l : List Nat) : Nat := l.foldr (fun d acc => d + 10 * acc) 0

/-! ### Normalization lemmas for `trim_data` -/

theorem trim_data_eq_rdropWhile (l : List Nat) :
    BigNum.trim_data l = l.rdropWhile (fun v => v == 0) := by
  rw [List.rdropWhile]
  conv_lhs => rw [BigNum.trim_data, ← l.reverse_reverse]
  generalize l.reverse = ys
  simp only [List.reverse_reverse, List.length_reverse]
  induction ys with
  | nil => rfl
  | cons y ys ih =>
    by_cases hy : (y == 0) = true
    · simp only [List.takeWhile_cons, List.dropWhile_cons, hy, if_true,
        List.length_cons, List.reverse_cons, Nat.succ_sub_succ]
      rw [List.take_append_of_le_length
        (by simp [Nat.sub_le])]
      exact ih
    · rw [Bool.not_eq_true] at hy
      simp [List.takeWhile_cons, List.dropWhile_cons, hy, List.take_of_length_le]

theorem trim_data_getLast? (l : List Nat) :
    (BigNum.trim_data l).getLast? ≠ some 0 := by
  rw [trim_data_eq_rdropWhile]
  intro h
  have hne : l.rdropWhile (fun v => v == 0) ≠ [] := by
    intro hnil
    rw [hnil] at h
    exact Option.noConfusion h
  have hlast := List.rdropWhile_last_not (fun v => v == 0) l hne
  rw [List.getLast?_eq_getLast _ hne] at h
  have : (l.rdropWhile (fun v => v == 0)).getLast hne = 0 := Option.some.inj h
  rw [this] at hlast
  exact hlast (by simp)

/-- C1: evaluation of `add_left` at the failing input `5 + 5` / `8 + 8`.
Adding digit 8 to a receiver holding digit 8 yields the stored digit
`16 & 0b1111 = 0` with the final carry dropped, so the result represents 0
rather than 16; adding 5 to 5 stores the digit 10, outside the range 0-9.
The claimed digit-wise addition with carry does not hold. -/
theorem bignum_add_left_digit_and_carry_bug :
    BigNum.add_left { left := [8], right := [] } [8]
        = { left := [0], right := [] }
      ∧ digitsVal (BigNum.add_left { left := [8], right := [] } [8]).left
          ≠ digitsVal [8] + digitsVal [8]
      ∧ BigNum.add_left { left := [5], right := [] } [5]
          = { left := [10], right := [] } := by
  refine ⟨by decide, by decide, by decide⟩

/-- C2: evaluation of `add_right` at the failing input `0.9 + 0.1`.
The receiver `{left := [], right := [9]}` is the parse of `"0.9"` and the
operand `[1]` is the fraction-digit sequence of `"0.1"`.  The source never
reads `right[0]` at the final loop step and pushes `other[0] + carry` onto
the most-significant end of `left`, so the result is
`{left := [1], right := [9]}` (printed `1.9`), not the value 1.0
(`{left := [1], right := []}`) the claim requires. -/
theorem bignum_add_right_carry_bug :
    BigNum.add_right { left := [], right := [9] } [1]
        = { left := [1], right := [9] }
      ∧ ({ left := [1], right := [9] } : BigNum)
          ≠ ({ left := [1], right := [] } : BigNum) := by
  refine ⟨by decide, by decide⟩

/-- C3 (counterexample): `add_left` does not re-normalize.  Adding the
operand digit sequence `[0]` to the zero `BigNum` leaves the integer digit
sequence `[0]`, whose most-significant-side digit is a non-semantic zero,
refuting the claim that the invariant holds after every mutating
operation. -/
theorem bignum_mutation_leaves_trailing_zero :
    (BigNum.add_left (BigNum.from_raw [] []) [0]).left = [0]
      ∧ ([0] : List Nat).getLast? = some 0 := by
  refine ⟨by decide, by decide⟩

/-- C3 (amended): after construction through `from_raw` (and hence after
parsing, which goes through `from_raw`) neither digit sequence ends in a
non-semantic zero; `add_left` and `add_right` do not re-trim. -/
theorem bignum_from_raw_normalizes :
    ∀ l r : List Nat,
      (BigNum.from_raw l r).left.getLast? ≠ some 0
        ∧ (BigNum.from_raw l r).right.getLast? ≠ some 0 :=
  fun l r => ⟨trim_data_getLast? l, trim_data_getLast? r⟩

/-- C3 (witness): the normalization theorem applied at the concrete digit
vectors `[1, 0]` and `[0, 2, 0]`. -/
theorem bignum_from_raw_normalizes_witness :
    (BigNum.from_raw [1, 0] [0, 2, 0]).left.getLast? ≠ some 0
      ∧ (BigNum.from_raw [1, 0] [0, 2, 0]).right.getLast? ≠ some 0 :=
  bignum_from_raw_normalizes [1, 0] [0, 2, 0]

/-- C6: evaluation of the `FromStr` parser at the failing inputs.  On `"5"`
(no radix point) the source indexes `divided_string[1]` out of bounds and
panics (embedded as `none`) instead of returning an error; on `"a.b"`
(non-digit characters) it happily returns `Ok` with the out-of-range digit
values 49 and 50 (`'a' - 48`, `'b' - 48`).  The claim that such inputs fail
with an error, without panicking, does not hold. -/
theorem bignum_from_str_no_error_reporting :
    BigNum.from_str? "5" = none
      ∧ BigNum.from_str? "a.b" = some { left := [49], right := [50] } := by
  refine ⟨by decide, by decide⟩

/-- C8: parsing `"12.30"` yields the same `BigNum` as parsing `"12.3"` (the
trailing fractional zero is trimmed by `from_raw`), and every successfully
parsed `BigNum` carries no structural zero at the most-significant end of
its integer digit sequence (the representation of the value 0 being the
empty sequence). -/
theorem bignum_parse_round_trip_and_no_leading_zero :
    BigNum.from_str? "12.30" = BigNum.from_str? "12.3"
      ∧ ∀ s : String, ∀ b : BigNum,
          BigNum.from_str? s = some b → b.left.getLast? ≠ some 0 := by
  refine ⟨by decide, ?_⟩
  intro s b h
  rw [BigNum.from_str?] at h
  rcases hsp : BigNum.split_dot s.data with _ | ⟨p0, rest⟩
  · rw [hsp] at h
    exact Option.noConfusion h
  · rcases rest with _ | ⟨p1, rest'⟩
    · rw [hsp] at h
      exact Option.noConfusion h
    · rw [hsp] at h
      have hb := Option.some.inj h
      rw [← hb]
      exact trim_data_getLast? _

/-- C8 (witness): the round-trip theorem instantiated at the concrete parse
of `"12.30"`. -/
theorem bignum_parse_round_trip_witness :
    BigNum.from_str? "12.30" = some { left := [2, 1], right := [3] }
      ∧ ({ left := [2, 1], right := [3] } : BigNum).left.getLast? ≠ some 0 :=
  ⟨by decide,
    bignum_parse_round_trip_and_no_leading_zero.2 "12.30"
      { left := [2, 1], right := [3] } (by decide)⟩

/-! ## `src/lexer.rs` -/

/-- `enum Operator` -/
inductive Operator
  | Plus | Minus | Star | Slash | Percent | Caret | LParen | RParen | Pipe | Equals
deriving DecidableEq, Repr

/-- `enum Function` -/
inductive Function
  | Sqrt | Sin | Cos | Tan | Log | Abs
deriving DecidableEq, Repr

/-- `enum Constant` -/
inductive Constant
  | Pi | E
deriving DecidableEq, Repr

/-- `enum Token`.  `Number` carries the `f64` produced by Rust's float
parser. -/
inductive Token
  | Number (v : Float)
  | Operator (op : Rsc.Operator)
  | Function (f : Rsc.Function)
  | Constant (c : Rsc.Constant)
  | Identifier (s : String)

/-- `enum LexerError`.  Note: the variants carry only the offending
character or number text — there is no span field. -/
inductive LexerError
  | InvalidCharacter (c : Char)
  | InvalidNumber (s : String)
deriving DecidableEq, Repr

/-- Rust `char::is_digit(10)`, on the ASCII range. -/
def is_digit (c : Char) : Bool := decide (48 ≤ c.toNat ∧ c.toNat ≤ 57)

/-- Rust `char::is_alphabetic`, on the ASCII range. -/
def is_alphabetic (c : Char) : Bool :=
  decide ((65 ≤ c.toNat ∧ c.toNat ≤ 90) ∨ (97 ≤ c.toNat ∧ c.toNat ≤ 122))

/-- Rust `char::is_whitespace`, on the ASCII range. -/
def is_whitespace (c : Char) : Bool :=
  decide (c.toNat = 32 ∨ c.toNat = 9 ∨ c.toNat = 10 ∨ c.toNat = 13)

/-- Rust `str::to_lowercase`, character-wise on the ASCII range. -/
def to_lowercase (c : Char) : Char :=
  if h : 65 ≤ c.toNat ∧ c.toNat ≤ 90 then
    Char.ofNatAux (c.toNat + 32) (Or.inl (by omega))
  else c

/-- The class of characters consumed by a numeric literal:
`chars[i].is_digit(10) || chars[i] == '.'`. -/
def num_char (c : Char) : Bool := is_digit c || decide (c = '.')

/-- The natural number denoted by the digit characters of a numeric
literal, ignoring the radix point. -/
def digits_to_nat (cs : List Char) : Nat :=
  (cs.filter is_digit).foldl (fun a c => 10 * a + (c.toNat - 48)) 0

/-- Rust `number_string.parse::<f64>()`, restricted to the alphabet the
tokenizer can accumulate (digits and `'.'`): the parse succeeds exactly when
the text holds at most one `'.'` and at least one digit, and yields the
correctly rounded double of `mantissa × 10^(-fractionDigits)` — the rounding
`Float.ofScientific` performs. -/
def parse_f64? (cs : List Char) : Option Float :=
  if (cs.filter (fun c => c == '.')).length ≤ 1 ∧ cs.any is_digit then
    some (Float.ofScientific (digits_to_nat cs) true
      (((cs.dropWhile (fun c => !(c == '.'))).drop 1).length))
  else none

/-- The `match &full_identifier.to_lowercase()[..]` arms of `tokenize`:
constants first, then built-in functions, else an identifier. -/
def classify_word (w : String) : Token :=
  if w = "pi" then Token.Constant Constant.Pi
  else if w = "e" then Token.Constant Constant.E
  else if w = "sqrt" then Token.Function Function.Sqrt
  else if w = "sin" then Token.Function Function.Sin
  else if w = "cos" then Token.Function Function.Cos
  else if w = "tan" then Token.Function Function.Tan
  else if w = "log" then Token.Function Function.Log
  else if w = "abs" then Token.Function Function.Abs
  else Token.Identifier w

/-- The scanning loop of `tokenize`.  Every iteration of the Rust `while`
loop consumes at least one character, so running the loop with fuel equal to
the input length is exact; the fuel-exhausted case is unreachable from
`tokenize` below. -/
def tokenize_go : Nat → List Char → Except LexerError (List Token)
  | _, [] => Except.ok []
  | 0, _ :: _ => Except.ok []
  | fuel + 1, c :: cs =>
    if c = '+' then (tokenize_go fuel cs).map (fun ts => Token.Operator Operator.Plus :: ts)
    else if c = '-' then (tokenize_go fuel cs).map (fun ts => Token.Operator Operator.Minus :: ts)
    else if c = '*' then (tokenize_go fuel cs).map (fun ts => Token.Operator Operator.Star :: ts)
    else if c = '/' then (tokenize_go fuel cs).map (fun ts => Token.Operator Operator.Slash :: ts)
    else if c = '%' then (tokenize_go fuel cs).map (fun ts => Token.Operator Operator.Percent :: ts)
    else if c = '^' then (tokenize_go fuel cs).map (fun ts => Token.Operator Operator.Caret :: ts)
    else if c = '(' then (tokenize_go fuel cs).map (fun ts => Token.Operator Operator.LParen :: ts)
    else if c = ')' then (tokenize_go fuel cs).map (fun ts => Token.Operator Operator.RParen :: ts)
    else if c = '|' then (tokenize_go fuel cs).map (fun ts => Token.Operator Operator.Pipe :: ts)
    else if c = '=' then (tokenize_go fuel cs).map (fun ts => Token.Operator Operator.Equals :: ts)
    else if is_whitespace c then tokenize_go fuel cs
    else if num_char c then
      match parse_f64? (c :: cs.takeWhile num_char) with
      | some v =>
        (tokenize_go fuel (cs.dropWhile num_char)).map (fun ts => Token.Number v :: ts)
      | none => Except.error (LexerError.InvalidNumber (String.mk (c :: cs.takeWhile num_char)))
    else if is_alphabetic c then
      (tokenize_go fuel (cs.dropWhile is_alphabetic)).map
        (fun ts =>
          classify_word (String.mk ((c :: cs.takeWhile is_alphabetic).map to_lowercase)) :: ts)
    else Except.error (LexerError.InvalidCharacter c)

/-- `pub fn tokenize(input: &str)` -/
def tokenize (s : String) : Except LexerError (List Token) :=
  tokenize_go s.data.length s.data

/-- One unfolding of the scanning loop on a non-empty input with fuel left. -/
theorem tokenize_go_cons (fuel : Nat) (c : Char) (cs : List Char) :
    tokenize_go (fuel + 1) (c :: cs) =
      (if c = '+' then (tokenize_go fuel cs).map (fun ts => Token.Operator Operator.Plus :: ts)
      else if c = '-' then (tokenize_go fuel cs).map (fun ts => Token.Operator Operator.Minus :: ts)
      else if c = '*' then (tokenize_go fuel cs).map (fun ts => Token.Operator Operator.Star :: ts)
      else if c = '/' then (tokenize_go fuel cs).map (fun ts => Token.Operator Operator.Slash :: ts)
      else if c = '%' then (tokenize_go fuel cs).map (fun ts => Token.Operator Operator.Percent :: ts)
      else if c = '^' then (tokenize_go fuel cs).map (fun ts => Token.Operator Operator.Caret :: ts)
      else if c = '(' then (tokenize_go fuel cs).map (fun ts => Token.Operator Operator.LParen :: ts)
      else if c = ')' then (tokenize_go fuel cs).map (fun ts => Token.Operator Operator.RParen :: ts)
      else if c = '|' then (tokenize_go fuel cs).map (fun ts => Token.Operator Operator.Pipe :: ts)
      else if c = '=' then (tokenize_go fuel cs).map (fun ts => Token.Operator Operator.Equals :: ts)
      else if is_whitespace c then tokenize_go fuel cs
      else if num_char c then
        match parse_f64? (c :: cs.takeWhile num_char) with
        | some v =>
          (tokenize_go fuel (cs.dropWhile num_char)).map (fun ts => Token.Number v :: ts)
        | none => Except.error (LexerError.InvalidNumber (String.mk (c :: cs.takeWhile num_char)))
      else if is_alphabetic c then
        (tokenize_go fuel (cs.dropWhile is_alphabetic)).map
          (fun ts =>
            classify_word (String.mk ((c :: cs.takeWhile is_alphabetic).map to_lowercase)) :: ts)
      else Except.error (LexerError.InvalidCharacter c)) := rfl

/-! ### Character-class lemmas -/

theorem to_lowercase_toNat (c : Char) :
    (to_lowercase c).toNat =
      if 65 ≤ c.toNat ∧ c.toNat ≤ 90 then c.toNat + 32 else c.toNat := by
  rw [to_lowercase]
  split <;> rfl

theorem to_lowercase_eq_self {c : Char} (h : ¬(65 ≤ c.toNat ∧ c.toNat ≤ 90)) :
    to_lowercase c = c := dif_neg h

theorem to_lowercase_of_not_alpha {c : Char} (h : is_alphabetic c = false) :
    to_lowercase c = c := by
  apply to_lowercase_eq_self
  rw [is_alphabetic, decide_eq_false_iff_not] at h
  intro hc
  exact h (Or.inl hc)

theorem is_alphabetic_to_lowercase (c : Char) :
    is_alphabetic (to_lowercase c) = is_alphabetic c := by
  rw [is_alphabetic, is_alphabetic, to_lowercase_toNat c]
  by_cases hc : 65 ≤ c.toNat ∧ c.toNat ≤ 90
  · rw [if_pos hc, decide_eq_decide]
    omega
  · rw [if_neg hc]

theorem is_whitespace_to_lowercase (c : Char) :
    is_whitespace (to_lowercase c) = is_whitespace c := by
  rw [is_whitespace, is_whitespace, to_lowercase_toNat c]
  by_cases hc : 65 ≤ c.toNat ∧ c.toNat ≤ 90
  · rw [if_pos hc, decide_eq_decide]
    omega
  · rw [if_neg hc]

theorem is_digit_to_lowercase (c : Char) :
    is_digit (to_lowercase c) = is_digit c := by
  rw [is_digit, is_digit, to_lowercase_toNat c]
  by_cases hc : 65 ≤ c.toNat ∧ c.toNat ≤ 90
  · rw [if_pos hc, decide_eq_decide]
    omega
  · rw [if_neg hc]

theorem to_lowercase_eq_iff {c : Char} (d : Char) (hd : is_alphabetic d = false) :
    to_lowercase c = d ↔ c = d := by
  by_cases hc : 65 ≤ c.toNat ∧ c.toNat ≤ 90
  · have hlow : is_alphabetic (to_lowercase c) = true := by
      rw [is_alphabetic, to_lowercase_toNat c, if_pos hc, decide_eq_true_eq]
      omega
    have hup : is_alphabetic c = true := by
      rw [is_alphabetic, decide_eq_true_eq]
      exact Or.inl hc
    constructor
    · intro he
      rw [he] at hlow
      rw [hlow] at hd
      exact Bool.noConfusion hd
    · intro he
      rw [he] at hup
      rw [hup] at hd
      exact Bool.noConfusion hd
  · rw [to_lowercase_eq_self hc]

theorem num_char_to_lowercase (c : Char) :
    num_char (to_lowercase c) = num_char c := by
  rw [num_char, num_char, is_digit_to_lowercase c]
  have hdot : (to_lowercase c = '.') ↔ (c = '.') :=
    to_lowercase_eq_iff '.' (by decide)
  rw [decide_eq_decide.2 hdot]

theorem to_lowercase_idem (c : Char) :
    to_lowercase (to_lowercase c) = to_lowercase c := by
  by_cases hc : 65 ≤ c.toNat ∧ c.toNat ≤ 90
  · apply to_lowercase_eq_self
    rw [to_lowercase_toNat c, if_pos hc]
    omega
  · rw [to_lowercase_eq_self hc, to_lowercase_eq_self hc]

theorem to_lowercase_of_num_char {c : Char} (h : num_char c = true) :
    to_lowercase c = c := by
  apply to_lowercase_eq_self
  rw [num_char, Bool.or_eq_true, is_digit, decide_eq_true_eq, decide_eq_true_eq] at h
  rcases h with h | h
  · omega
  · rw [h]
    decide

theorem map_to_lowercase_of_num_char :
    ∀ l : List Char, (∀ x ∈ l, num_char x = true) → l.map to_lowercase = l
  | [], _ => rfl
  | x :: xs, h => by
    rw [List.map_cons, to_lowercase_of_num_char (h x (List.mem_cons_self x xs)),
      map_to_lowercase_of_num_char xs (fun y hy => h y (List.mem_cons_of_mem x hy))]

theorem to_lowercase_comp_idem :
    to_lowercase ∘ to_lowercase = to_lowercase := funext to_lowercase_idem

theorem num_char_comp_to_lowercase :
    num_char ∘ to_lowercase = num_char := funext num_char_to_lowercase

theorem is_alphabetic_comp_to_lowercase :
    is_alphabetic ∘ to_lowercase = is_alphabetic := funext is_alphabetic_to_lowercase

theorem tl_eq_plus (c : Char) : to_lowercase c = '+' ↔ c = '+' :=
  to_lowercase_eq_iff '+' (by decide)

theorem tl_eq_minus (c : Char) : to_lowercase c = '-' ↔ c = '-' :=
  to_lowercase_eq_iff '-' (by decide)

theorem tl_eq_star (c : Char) : to_lowercase c = '*' ↔ c = '*' :=
  to_lowercase_eq_iff '*' (by decide)

theorem tl_eq_slash (c : Char) : to_lowercase c = '/' ↔ c = '/' :=
  to_lowercase_eq_iff '/' (by decide)

theorem tl_eq_percent (c : Char) : to_lowercase c = '%' ↔ c = '%' :=
  to_lowercase_eq_iff '%' (by decide)

theorem tl_eq_caret (c : Char) : to_lowercase c = '^' ↔ c = '^' :=
  to_lowercase_eq_iff '^' (by decide)

theorem tl_eq_lparen (c : Char) : to_lowercase c = '(' ↔ c = '(' :=
  to_lowercase_eq_iff '(' (by decide)

theorem tl_eq_rparen (c : Char) : to_lowercase c = ')' ↔ c = ')' :=
  to_lowercase_eq_iff ')' (by decide)

theorem tl_eq_pipe (c : Char) : to_lowercase c = '|' ↔ c = '|' :=
  to_lowercase_eq_iff '|' (by decide)

theorem tl_eq_equals (c : Char) : to_lowercase c = '=' ↔ c = '=' :=
  to_lowercase_eq_iff '=' (by decide)

/-- Lowercasing the whole input before scanning does not change the scan:
every branch decision of the loop, the accumulated identifier text (which is
lowercased anyway) and the accumulated number text (which holds no letters)
are invariant under `to_lowercase`. -/
theorem tokenize_go_map_to_lowercase (fuel : Nat) :
    ∀ cs : List Char,
      tokenize_go fuel (cs.map to_lowercase) = tokenize_go fuel cs := by
  induction fuel with
  | zero =>
    intro cs
    cases cs <;> rfl
  | succ fuel ih =>
    intro cs
    cases cs with
    | nil => rfl
    | cons c cs =>
      rw [List.map_cons, tokenize_go_cons, tokenize_go_cons]
      simp only [tl_eq_plus, tl_eq_minus, tl_eq_star,
        tl_eq_slash, tl_eq_percent, tl_eq_caret, tl_eq_lparen, tl_eq_rparen,
        tl_eq_pipe, tl_eq_equals, is_whitespace_to_lowercase,
        num_char_to_lowercase, is_alphabetic_to_lowercase]
      by_cases h1 : c = '+'
      · rw [if_pos h1, if_pos h1, ih]
      rw [if_neg h1, if_neg h1]
      by_cases h2 : c = '-'
      · rw [if_pos h2, if_pos h2, ih]
      rw [if_neg h2, if_neg h2]
      by_cases h3 : c = '*'
      · rw [if_pos h3, if_pos h3, ih]
      rw [if_neg h3, if_neg h3]
      by_cases h4 : c = '/'
      · rw [if_pos h4, if_pos h4, ih]
      rw [if_neg h4, if_neg h4]
      by_cases h5 : c = '%'
      · rw [if_pos h5, if_pos h5, ih]
      rw [if_neg h5, if_neg h5]
      by_cases h6 : c = '^'
      · rw [if_pos h6, if_pos h6, ih]
      rw [if_neg h6, if_neg h6]
      by_cases h7 : c = '('
      · rw [if_pos h7, if_pos h7, ih]
      rw [if_neg h7, if_neg h7]
      by_cases h8 : c = ')'
      · rw [if_pos h8, if_pos h8, ih]
      rw [if_neg h8, if_neg h8]
      by_cases h9 : c = '|'
      · rw [if_pos h9, if_pos h9, ih]
      rw [if_neg h9, if_neg h9]
      by_cases h10 : c = '='
      · rw [if_pos h10, if_pos h10, ih]
      rw [if_neg h10, if_neg h10]
      by_cases h11 : is_whitespace c = true
      · rw [if_pos h11, if_pos h11]
        exact ih cs
      rw [if_neg h11, if_neg h11]
      by_cases h12 : num_char c = true
      · rw [if_pos h12, if_pos h12, List.takeWhile_map, List.dropWhile_map,
          num_char_comp_to_lowercase,
          map_to_lowercase_of_num_char (cs.takeWhile num_char)
            (fun x hx => List.mem_takeWhile_imp hx),
          to_lowercase_of_num_char h12]
        simp only [ih]
      rw [if_neg h12, if_neg h12]
      by_cases h13 : is_alphabetic c = true
      · rw [if_pos h13, if_pos h13, List.takeWhile_map, List.dropWhile_map,
          is_alphabetic_comp_to_lowercase]
        simp only [List.map_cons, List.map_map, to_lowercase_comp_idem,
          to_lowercase_idem, ih]
      rw [if_neg h13, if_neg h13,
        to_lowercase_of_not_alpha (Bool.not_eq_true _ ▸ h13)]

theorem ok_of_map_cons {t : Token} {r : Except LexerError (List Token)}
    {toks : List Token} (h : r.map (fun ts => t :: ts) = Except.ok toks) :
    ∃ ts, r = Except.ok ts ∧ toks = t :: ts := by
  cases r with
  | error e => exact absurd h (by simp [Except.map])
  | ok ts =>
    simp only [Except.map, Except.ok.injEq] at h
    exact ⟨ts, rfl, h.symm⟩

theorem classify_word_ident {w name : String}
    (h : Token.Identifier name = classify_word w) : name = w := by
  rw [classify_word] at h
  split_ifs at h
  all_goals first
    | exact Token.noConfusion h
    | exact Token.Identifier.inj h

/-- Every identifier token the scanning loop emits holds text that is a
fixed point of character-wise lowercasing. -/
theorem tokenize_go_ident_lower :
    ∀ (fuel : Nat) (cs : List Char) (toks : List Token) (name : String),
      tokenize_go fuel cs = Except.ok toks → Token.Identifier name ∈ toks →
        name.data.map to_lowercase = name.data := by
  intro fuel
  induction fuel with
  | zero =>
    intro cs toks name h hm
    cases cs with
    | nil =>
      cases Except.ok.inj h
      exact absurd hm (List.not_mem_nil _)
    | cons c cs =>
      cases Except.ok.inj h
      exact absurd hm (List.not_mem_nil _)
  | succ fuel ih =>
    intro cs toks name h hm
    cases cs with
    | nil =>
      cases Except.ok.inj h
      exact absurd hm (List.not_mem_nil _)
    | cons c cs =>
      rw [tokenize_go_cons] at h
      by_cases h1 : c = '+'
      · rw [if_pos h1] at h
        obtain ⟨ts, hr, rfl⟩ := ok_of_map_cons h
        rcases List.mem_cons.1 hm with he | hm'
        · exact Token.noConfusion he
        · exact ih cs ts name hr hm'
      rw [if_neg h1] at h
      by_cases h2 : c = '-'
      · rw [if_pos h2] at h
        obtain ⟨ts, hr, rfl⟩ := ok_of_map_cons h
        rcases List.mem_cons.1 hm with he | hm'
        · exact Token.noConfusion he
        · exact ih cs ts name hr hm'
      rw [if_neg h2] at h
      by_cases h3 : c = '*'
      · rw [if_pos h3] at h
        obtain ⟨ts, hr, rfl⟩ := ok_of_map_cons h
        rcases List.mem_cons.1 hm with he | hm'
        · exact Token.noConfusion he
        · exact ih cs ts name hr hm'
      rw [if_neg h3] at h
      by_cases h4 : c = '/'
      · rw [if_pos h4] at h
        obtain ⟨ts, hr, rfl⟩ := ok_of_map_cons h
        rcases List.mem_cons.1 hm with he | hm'
        · exact Token.noConfusion he
        · exact ih cs ts name hr hm'
      rw [if_neg h4] at h
      by_cases h5 : c = '%'
      · rw [if_pos h5] at h
        obtain ⟨ts, hr, rfl⟩ := ok_of_map_cons h
        rcases List.mem_cons.1 hm with he | hm'
        · exact Token.noConfusion he
        · exact ih cs ts name hr hm'
      rw [if_neg h5] at h
      by_cases h6 : c = '^'
      · rw [if_pos h6] at h
        obtain ⟨ts, hr, rfl⟩ := ok_of_map_cons h
        rcases List.mem_cons.1 hm with he | hm'
        · exact Token.noConfusion he
        · exact ih cs ts name hr hm'
      rw [if_neg h6] at h
      by_cases h7 : c = '('
      · rw [if_pos h7] at h
        obtain ⟨ts, hr, rfl⟩ := ok_of_map_cons h
        rcases List.mem_cons.1 hm with he | hm'
        · exact Token.noConfusion he
        · exact ih cs ts name hr hm'
      rw [if_neg h7] at h
      by_cases h8 : c = ')'
      · rw [if_pos h8] at h
        obtain ⟨ts, hr, rfl⟩ := ok_of_map_cons h
        rcases List.mem_cons.1 hm with he | hm'
        · exact Token.noConfusion he
        · exact ih cs ts name hr hm'
      rw [if_neg h8] at h
      by_cases h9 : c = '|'
      · rw [if_pos h9] at h
        obtain ⟨ts, hr, rfl⟩ := ok_of_map_cons h
        rcases List.mem_cons.1 hm with he | hm'
        · exact Token.noConfusion he
        · exact ih cs ts name hr hm'
      rw [if_neg h9] at h
      by_cases h10 : c = '='
      · rw [if_pos h10] at h
        obtain ⟨ts, hr, rfl⟩ := ok_of_map_cons h
        rcases List.mem_cons.1 hm with he | hm'
        · exact Token.noConfusion he
        · exact ih cs ts name hr hm'
      rw [if_neg h10] at h
      by_cases h11 : is_whitespace c = true
      · rw [if_pos h11] at h
        exact ih cs toks name h hm
      rw [if_neg h11] at h
      by_cases h12 : num_char c = true
      · rw [if_pos h12] at h
        cases hp : parse_f64? (c :: cs.takeWhile num_char) with
        | none =>
          rw [hp] at h
          exact Except.noConfusion h
        | some v =>
          rw [hp] at h
          obtain ⟨ts, hr, rfl⟩ := ok_of_map_cons h
          rcases List.mem_cons.1 hm with he | hm'
          · exact Token.noConfusion he
          · exact ih (cs.dropWhile num_char) ts name hr hm'
      rw [if_neg h12] at h
      by_cases h13 : is_alphabetic c = true
      · rw [if_pos h13] at h
        obtain ⟨ts, hr, rfl⟩ := ok_of_map_cons h
        rcases List.mem_cons.1 hm with he | hm'
        · rw [classify_word_ident he]
          show ((c :: cs.takeWhile is_alphabetic).map to_lowercase).map to_lowercase
            = (c :: cs.takeWhile is_alphabetic).map to_lowercase
          rw [List.map_map, to_lowercase_comp_idem]
        · exact ih (cs.dropWhile is_alphabetic) ts name hr hm'
      rw [if_neg h13] at h
      exact Except.noConfusion h

/-- C4 (counterexample): the error value `tokenize` returns carries no
source span.  The inputs `"2 & 3"` and `"22 & 3"` place the offending `'&'`
at the distinct byte spans `[2,3)` and `[3,4)`, yet `tokenize` returns the
very same error value for both, so no span (in particular not `[2,3)`) can
be recovered from it. -/
theorem tokenize_error_carries_no_span :
    tokenize "2 & 3" = tokenize "22 & 3"
      ∧ tokenize "22 & 3" = Except.error (LexerError.InvalidCharacter '&') :=
  ⟨rfl, rfl⟩

/-- C4 (amended): `tokenize "2 & 3"` fails with `InvalidCharacter '&'`; a
`LexerError` carries only the offending character (or number text), not a
byte span. -/
theorem tokenize_invalid_character :
    tokenize "2 & 3" = Except.error (LexerError.InvalidCharacter '&') := rfl

/-- C7: an alphabetic character starts an identifier: the loop greedily
consumes the maximal run of alphabetic characters (digits and underscores
stop the run), lowercases the accumulated text, and classifies it first
against the constant names `pi` and `e`, then the built-in function names
`sqrt`, `sin`, `cos`, `tan`, `log`, `abs`, and otherwise emits an
`Identifier` token holding the lowercased text. -/
theorem tokenize_identifier_rule :
    (∀ (fuel : Nat) (c : Char) (cs : List Char), is_alphabetic c = true →
        tokenize_go (fuel + 1) (c :: cs)
          = (tokenize_go fuel (cs.dropWhile is_alphabetic)).map
              (fun ts =>
                classify_word
                    (String.mk ((c :: cs.takeWhile is_alphabetic).map to_lowercase)) :: ts))
      ∧ classify_word "pi" = Token.Constant Constant.Pi
      ∧ classify_word "e" = Token.Constant Constant.E
      ∧ classify_word "sqrt" = Token.Function Function.Sqrt
      ∧ classify_word "sin" = Token.Function Function.Sin
      ∧ classify_word "cos" = Token.Function Function.Cos
      ∧ classify_word "tan" = Token.Function Function.Tan
      ∧ classify_word "log" = Token.Function Function.Log
      ∧ classify_word "abs" = Token.Function Function.Abs
      ∧ ∀ w : String,
          w ∉ (["pi", "e", "sqrt", "sin", "cos", "tan", "log", "abs"] : List String) →
            classify_word w = Token.Identifier w := by
  refine ⟨?_, rfl, rfl, rfl, rfl, rfl, rfl, rfl, rfl, ?_⟩
  · intro fuel c cs h
    have h1 : ¬(c = '+') := by rintro rfl; exact absurd h (by decide)
    have h2 : ¬(c = '-') := by rintro rfl; exact absurd h (by decide)
    have h3 : ¬(c = '*') := by rintro rfl; exact absurd h (by decide)
    have h4 : ¬(c = '/') := by rintro rfl; exact absurd h (by decide)
    have h5 : ¬(c = '%') := by rintro rfl; exact absurd h (by decide)
    have h6 : ¬(c = '^') := by rintro rfl; exact absurd h (by decide)
    have h7 : ¬(c = '(') := by rintro rfl; exact absurd h (by decide)
    have h8 : ¬(c = ')') := by rintro rfl; exact absurd h (by decide)
    have h9 : ¬(c = '|') := by rintro rfl; exact absurd h (by decide)
    have h10 : ¬(c = '=') := by rintro rfl; exact absurd h (by decide)
    have halpha : (65 ≤ c.toNat ∧ c.toNat ≤ 90) ∨ (97 ≤ c.toNat ∧ c.toNat ≤ 122) := by
      rw [is_alphabetic, decide_eq_true_eq] at h
      exact h
    have h11 : ¬(is_whitespace c = true) := by
      intro hw
      rw [is_whitespace, decide_eq_true_eq] at hw
      omega
    have h12 : ¬(num_char c = true) := by
      intro hn
      rw [num_char, Bool.or_eq_true, is_digit, decide_eq_true_eq,
        decide_eq_true_eq] at hn
      rcases hn with hd | hdot
      · omega
      · rw [hdot] at halpha
        revert halpha
        decide
    rw [tokenize_go_cons, if_neg h1, if_neg h2, if_neg h3, if_neg h4, if_neg h5,
      if_neg h6, if_neg h7, if_neg h8, if_neg h9, if_neg h10, if_neg h11,
      if_neg h12, if_pos h]
  · intro w hw
    rw [classify_word]
    rw [if_neg (fun e => hw (by rw [e]; simp)),
      if_neg (fun e => hw (by rw [e]; simp)),
      if_neg (fun e => hw (by rw [e]; simp)),
      if_neg (fun e => hw (by rw [e]; simp)),
      if_neg (fun e => hw (by rw [e]; simp)),
      if_neg (fun e => hw (by rw [e]; simp)),
      if_neg (fun e => hw (by rw [e]; simp)),
      if_neg (fun e => hw (by rw [e]; simp))]

/-- C7 (witness): the identifier rule applied at the concrete input
`"SqRt"`, whose lowercased run matches the built-in function `sqrt`. -/
theorem tokenize_identifier_rule_witness :
    is_alphabetic 'S' = true
      ∧ tokenize_go (3 + 1) ('S' :: "qRt".data)
          = Except.ok [Token.Function Function.Sqrt] :=
  ⟨by decide, by
    rw [tokenize_identifier_rule.1 3 'S' ("qRt".data) (by decide)]
    rfl⟩

/-- C9: the lexer is case-insensitive — two inputs whose character-wise
lowercasings agree tokenize to the same result — and every `Identifier`
token it returns holds only lowercased text (a fixed point of
`to_lowercase`). -/
theorem tokenize_case_insensitive :
    (∀ s₁ s₂ : String, s₁.data.map to_lowercase = s₂.data.map to_lowercase →
        tokenize s₁ = tokenize s₂)
      ∧ ∀ (s : String) (toks : List Token) (name : String),
          tokenize s = Except.ok toks → Token.Identifier name ∈ toks →
            name.data.map to_lowercase = name.data := by
  constructor
  · intro s₁ s₂ h
    have hlen : s₁.data.length = s₂.data.length := by
      have hl := congrArg List.length h
      simpa using hl
    rw [tokenize, tokenize, ← tokenize_go_map_to_lowercase s₁.data.length s₁.data,
      h, hlen, tokenize_go_map_to_lowercase]
  · intro s toks name h hm
    exact tokenize_go_ident_lower s.data.length s.data toks name h hm

/-- C9 (witness): case-insensitivity applied at the concrete inputs `"Pi"`
and `"pI"`. -/
theorem tokenize_case_insensitive_witness :
    "Pi".data.map to_lowercase = "pI".data.map to_lowercase
      ∧ tokenize "Pi" = tokenize "pI" :=
  ⟨by decide, tokenize_case_insensitive.1 "Pi" "pI" (by decide)⟩

/-! ## `src/computer.rs` -/

/-- Modelled from the spec: the expression tree `Expr` is declared in the
parser module, which is not among the sources; its variants are reconstructed
from the match arms of `compute` in `src/computer.rs` and from §3 of the
specification (`NumberLiteral(value)`, `Identifier(name)`, `Negate`,
`BinaryOp`, function application, power). -/
inductive Expr
  | Constant (n : Float)
  | Identifier (s : String)
  | Neg (e : Expr)
  | BinOp (op : Rsc.Operator) (l r : Expr)
  | Function (f : Rsc.Function) (e : Expr)
  | Pow (l r : Expr)

/-- Rust's `%` on `f64` (`fmod`, remainder truncated toward zero), written
with the floor/ceil primitives; the claims below never inspect the numeric
value this produces. -/
def fmod (a b : Float) : Float :=
  a - b * (if 0 ≤ a / b then (a / b).floor else (a / b).ceil)

/-- `pub fn compute(expr: &Expr) -> f64`.  The `unimplemented!()` arm of the
`BinOp` match — reached for every operator other than `Plus`, `Minus`,
`Star`, `Slash`, `Percent` — is a Rust panic, embedded as `none`; both
operands are evaluated before the operator is examined, so a panic in either
operand propagates, as in the strict Rust evaluation order. -/
def compute : Expr → Option Float
  | Expr.Constant n => some n
  | Expr.Identifier _ => some 0
  | Expr.Neg e => (compute e).map (fun n => -n)
  | Expr.BinOp op l r => do
    let lnum ← compute l
    let rnum ← compute r
    match op with
    | Operator.Plus => some (lnum + rnum)
    | Operator.Minus => some (lnum - rnum)
    | Operator.Star => some (lnum * rnum)
    | Operator.Slash => some (lnum / rnum)
    | Operator.Percent => some (fmod lnum rnum)
    | _ => none
  | Expr.Function f e =>
    (compute e).map (fun num =>
      match f with
      | Function.Sqrt => num.sqrt
      | Function.Sin => num.sin
      | Function.Cos => num.cos
      | Function.Tan => num.tan
      | Function.Log => num.log10
      | Function.Abs => num.abs)
  | Expr.Pow l r => do
    let lnum ← compute l
    let rnum ← compute r
    some (lnum.pow rnum)

/-- The five operator kinds the `BinOp` arm of `compute` implements. -/
def supported_op : Operator → Bool
  | Operator.Plus => true
  | Operator.Minus => true
  | Operator.Star => true
  | Operator.Slash => true
  | Operator.Percent => true
  | _ => false

/-- Every `BinOp` node of the tree carries a supported operator. -/
def all_ops_supported : Expr → Bool
  | Expr.Constant _ => true
  | Expr.Identifier _ => true
  | Expr.Neg e => all_ops_supported e
  | Expr.BinOp op l r =>
    supported_op op && all_ops_supported l && all_ops_supported r
  | Expr.Function _ e => all_ops_supported e
  | Expr.Pow l r => all_ops_supported l && all_ops_supported r

/-- C5: evaluation of `compute` at the failing input.  An `Identifier`
expression — here the unbound `"y"` — evaluates to the number `0.0`; there is
no environment and no `VarDoesNotExist` error anywhere in `compute`, although
the token documentation in `src/lexer.rs` promises that identifiers in an
AST "will cause errors at computation time". -/
theorem compute_identifier_returns_zero :
    compute (Expr.Identifier "y") = some 0 := rfl

/-- C10: `compute` returns a value exactly when every `BinOp` node of the
tree carries one of `Plus`, `Minus`, `Star`, `Slash`, `Percent`; a tree
containing a `BinOp` with any other operator kind (`Caret`, `LParen`, ...)
reaches the `unimplemented!()` panic, embedded as `none`. -/
theorem compute_total_iff_ops_supported :
    ∀ e : Expr, (compute e).isSome = all_ops_supported e := by
  intro e
  induction e with
  | Constant n => rfl
  | Identifier s => rfl
  | Neg e ihe =>
    rw [compute, all_ops_supported, ← ihe]
    cases compute e <;> rfl
  | BinOp op l r ihl ihr =>
    rw [compute, all_ops_supported, ← ihl, ← ihr]
    cases compute l with
    | none => simp
    | some lv =>
      cases compute r with
      | none => simp
      | some rv =>
        cases op <;> simp [supported_op, Option.bind]
  | Function f e ihe =>
    rw [compute, all_ops_supported, ← ihe]
    cases compute e <;> rfl
  | Pow l r ihl ihr =>
    rw [compute, all_ops_supported, ← ihl, ← ihr]
    cases compute l with
    | none => rfl
    | some lv =>
      cases compute r <;> simp [Option.bind]

/-- C10 (witness): the totality characterisation applied at the concrete
tree `1 ^ 2`, whose `BinOp` carries the unsupported `Caret`. -/
theorem compute_total_iff_ops_supported_witness :
    (compute (Expr.BinOp Operator.Caret (Expr.Constant 1) (Expr.Constant 2))).isSome
      = all_ops_supported (Expr.BinOp Operator.Caret (Expr.Constant 1) (Expr.Constant 2)) :=
  compute_total_iff_ops_supported
    (Expr.BinOp Operator.Caret (Expr.Constant 1) (Expr.Constant 2))

end Rsc
